import Mathlib

/-!
Verification development for the CookieCleaner safe-deletion engine.

The Python sources under `src/` are shallowly embedded below: strings are
modelled as `List Char` (`Str`), SQLite's `LIKE` operator as a recursive
matcher, the whitelist manager as a record of its lookup structures, and
the delete executor as a pure state transformer over an abstract store (a
list of host-key rows) together with an explicit per-operation
environment supplying the outcomes of the I/O probes (lock check, backup
copy, transaction success).  Definitions come first, theorems follow.
-/

namespace CookieCleaner

/-! ## Strings and SQLite `LIKE` -/

/-- Strings are modelled as lists of characters. -/
abbrev Str := List Char

/-- ASCII lower-casing of a single character, as done by SQLite's default
`LIKE` comparison and by Python's `str.lower` on ASCII input (all domain
and host-key data handled by the engine is ASCII). -/
def foldChar (c : Char) : Char :=
  if 65 ≤ c.toNat ∧ c.toNat ≤ 90 then Char.ofNat (c.toNat + 32) else c

/-- Characters that may occur in a (normalized) domain or raw host key:
lowercase ASCII letters, digits, dot and hyphen.  In particular neither of
SQLite's `LIKE` metacharacters `%` and `_` is such a character. -/
def isDomainChar (c : Char) : Bool :=
  (97 ≤ c.toNat && c.toNat ≤ 122) || (48 ≤ c.toNat && c.toNat ≤ 57) ||
    c.toNat = 46 || c.toNat = 45

/-- Try a matcher on every suffix of the string (realising the
backtracking search a `%` wildcard performs). -/
def scanSuffixes (m : Str → Bool) : Str → Bool
  | [] => m []
  | c :: s' => m (c :: s') || scanSuffixes m s'

/-- SQLite `LIKE` pattern matching (default, case-insensitive for ASCII):
`%` matches any sequence of characters, `_` matches exactly one character,
any other pattern character matches itself up to ASCII case. -/
def likeMatch : Str → Str → Bool
  | [], s => s.isEmpty
  | p :: ps, s =>
    if p = '%' then
      scanSuffixes (likeMatch ps) s
    else
      match s with
      | [] => false
      | c :: s' => (p = '_' || foldChar p = foldChar c) && likeMatch ps s'

/-- The SQL `LIKE` pattern the delete planner builds from a raw host key
(`DeletePlanner._build_operation`): a leading-dot host key becomes a
`%`-prefixed wildcard pattern, a dot-less host key is used literally. -/
def buildLikePattern (hostKey : Str) : Str :=
  if hostKey.take 1 = ['.'] then '%' :: hostKey else hostKey

/-! ## Data model (`src/core/models.py`) -/

/-- The `DeleteTarget`: one domain target inside a delete operation.  `count`
is a Python `int`, hence modelled as `Int`. -/
structure DeleteTargetM where
  normalizedDomain : Str
  matchPattern : Str
  count : Int
deriving DecidableEq, Repr

/-- The `DeleteOperation`: the deletions planned for one (browser, profile,
database file) triple. -/
structure DeleteOperationM where
  browser : String
  profile : String
  dbPath : String
  backupPath : String
  browserExecutable : String
  targets : List DeleteTargetM
deriving DecidableEq, Repr

/-- The `DeletePlan`: plan id and timestamp are opaque inputs here (the source
draws them from `uuid.uuid4()` and `datetime.now`). -/
structure DeletePlanM where
  planId : String
  timestamp : Int
  dryRun : Bool
  operations : List DeleteOperationM
  totalCookiesToDelete : Int
  affectedProfiles : Nat
deriving DecidableEq, Repr

/-- The `DeletePlan.create`: fresh plan with empty operations and zero
running totals. -/
def createPlan (planId : String) (timestamp : Int) (dryRun : Bool) : DeletePlanM :=
  { planId := planId, timestamp := timestamp, dryRun := dryRun,
    operations := [], totalCookiesToDelete := 0, affectedProfiles := 0 }

/-- The `DeletePlan.add_operation`: append the operation and update the two
running totals exactly as the source does. -/
def addOperation (p : DeletePlanM) (op : DeleteOperationM) : DeletePlanM :=
  { p with
    operations := p.operations ++ [op],
    totalCookiesToDelete := p.totalCookiesToDelete + (op.targets.map (·.count)).sum,
    affectedProfiles := (p.operations ++ [op]).length }

/-! ## Abstract SQLite store

A cookie store is abstracted to the list of its rows' host keys; a
`DELETE FROM ... WHERE host_key LIKE ?` removes exactly the rows whose
host key matches the pattern and reports their number as `rowcount`.
The Chromium/Firefox dialect only changes the table and column names in
the SQL text (`_build_delete_sql` / `_build_count_sql`), not which rows
match, so it does not appear in the abstraction. -/

/-- A row, identified by its host key. -/
abbrev Row := Str

/-- A store is the list of its rows. -/
abbrev Store := List Row

/-- One parameterized `DELETE ... WHERE host LIKE ?`: the remaining rows
and the affected-row count. -/
def applyDelete (store : Store) (pat : Str) : Store × Nat :=
  (store.filter (fun r => !likeMatch pat r),
   (store.filter (fun r => likeMatch pat r)).length)

/-- The transaction body of `_execute_deletes`: one delete per target, in
order, summing the affected-row counts.  The transaction is modelled
atomically: `_execute_deletes` either commits all deletes or raises, in
which case the `ROLLBACK` leaves the file with its pre-transaction
content. -/
def applyTargets (store : Store) (ts : List DeleteTargetM) : Store × Nat :=
  ts.foldl
    (fun acc t =>
      let d := applyDelete acc.1 t.matchPattern
      (d.1, acc.2 + d.2))
    (store, 0)

/-- The `_count_targets` when the database file exists: one
`SELECT COUNT(*) ... LIKE ?` per target against the unmodified store. -/
def countTargets (store : Store) (ts : List DeleteTargetM) : Int :=
  ts.foldl (fun n t => n + ((store.filter (fun r => likeMatch t.matchPattern r)).length : Int)) 0

/-! ## Delete executor (`src/execution/delete_executor.py`) -/

/-- The `DeleteResult` for one operation. -/
structure DeleteResultM where
  browser : String
  profile : String
  deletedCount : Int
  success : Bool
  error : Option String
  backupPath : Option String
deriving DecidableEq, Repr

/-- The `DeleteReport` for a whole plan execution. -/
structure DeleteReportM where
  planId : String
  dryRun : Bool
  results : List DeleteResultM
  totalDeleted : Int
  totalFailed : Nat
deriving DecidableEq, Repr

/-- The `DeleteReport.success`: true when no operation failed. -/
def DeleteReportM.success (r : DeleteReportM) : Bool :=
  r.totalFailed = 0

/-- Environment of one operation: the outcomes of its I/O probes.
`locked` is what `LockResolver.check_lock` reports, `dbExists` whether
the database file exists, `backupOk` whether the backup copy succeeds,
`txFails` whether the delete transaction raises, `restoreOk` whether the
restore copy after a failed transaction succeeds. -/
structure OpEnv where
  locked : Bool
  blockingProcs : List String
  dbExists : Bool
  backupOk : Bool
  backupErr : String
  txFails : Bool
  txErr : String
  restoreOk : Bool
deriving DecidableEq, Repr

/-- Outcome of `_execute_operation` on one store: the reported result,
the store content afterwards, the backup content taken (if any), the
file copies made by the backup step, the paths opened with
`sqlite3.connect`, and whether a restore from backup was attempted. -/
structure OpOutcome where
  result : DeleteResultM
  store : Store
  backupTaken : Option Store
  copiesMade : List (String × String)
  connects : List String
  restoreAttempted : Bool
deriving DecidableEq, Repr

/-- The `DeleteExecutor._execute_operation`.

Step order as in the source: (1) lock check — a locked file fails the
operation with the blocking-process list and touches nothing;
(2) backup, skipped entirely in dry-run mode, and a failed backup fails
the operation before any mutation; the dialect probe then opens the
database (when it exists) to look for the `cookies` table; (3) dry run
counts matches (opening the database directly when it exists, falling
back to the planned counts otherwise) and reports success with zero
mutation; (4) the real path runs the delete transaction: on success the
matching rows are gone and their number reported; on an exception the
`ROLLBACK` leaves the pre-attempt content and a restore from the backup
just taken is attempted (succeeding or not, `restoreOk`), the operation
reporting failure either way. -/
def executeOperation (op : DeleteOperationM) (env : OpEnv) (store : Store)
    (dryRun : Bool) : OpOutcome :=
  if env.locked then
    let procs := if env.blockingProcs.isEmpty then "unknown process"
                 else String.intercalate ", " env.blockingProcs
    { result := { browser := op.browser, profile := op.profile, deletedCount := 0,
                  success := false, error := some ("Database locked by " ++ procs),
                  backupPath := none },
      store := store, backupTaken := none, copiesMade := [], connects := [],
      restoreAttempted := false }
  else if dryRun then
    let probeConnects := if env.dbExists then [op.dbPath] else []
    let countConnects := if env.dbExists then [op.dbPath] else []
    let wouldDelete := if env.dbExists then countTargets store op.targets
                       else (op.targets.map (·.count)).sum
    { result := { browser := op.browser, profile := op.profile,
                  deletedCount := wouldDelete, success := true, error := none,
                  backupPath := none },
      store := store, backupTaken := none, copiesMade := [],
      connects := probeConnects ++ countConnects, restoreAttempted := false }
  else if !env.backupOk then
    { result := { browser := op.browser, profile := op.profile, deletedCount := 0,
                  success := false,
                  error := some ("Backup failed: " ++ env.backupErr),
                  backupPath := none },
      store := store, backupTaken := none, copiesMade := [], connects := [],
      restoreAttempted := false }
  else
    let probeConnects := if env.dbExists then [op.dbPath] else []
    if env.txFails then
      { result := { browser := op.browser, profile := op.profile, deletedCount := 0,
                    success := false, error := some env.txErr,
                    backupPath := some op.backupPath },
        store := store, backupTaken := some store,
        copiesMade := [(op.dbPath, op.backupPath)],
        connects := probeConnects ++ [op.dbPath], restoreAttempted := true }
    else
      let d := applyTargets store op.targets
      { result := { browser := op.browser, profile := op.profile,
                    deletedCount := (d.2 : Int), success := true, error := none,
                    backupPath := some op.backupPath },
        store := d.1, backupTaken := some store,
        copiesMade := [(op.dbPath, op.backupPath)],
        connects := probeConnects ++ [op.dbPath], restoreAttempted := false }

/-- The `DeleteExecutor.execute`: sequential loop over the plan's operations,
each paired positionally with its environment and store.  As in the
source there is no process gate: the loop starts immediately.  Returns
the report, the stores afterwards, and the backups taken. -/
def execute (plan : DeletePlanM) (world : List (OpEnv × Store)) (dryRun : Bool) :
    DeleteReportM × List Store × List (Option Store) :=
  (plan.operations.zip world).foldl
    (fun acc x =>
      let o := executeOperation x.1 x.2.1 x.2.2 dryRun
      ({ acc.1 with
          results := acc.1.results ++ [o.result],
          totalDeleted := if o.result.success then acc.1.totalDeleted + o.result.deletedCount
                          else acc.1.totalDeleted,
          totalFailed := if o.result.success then acc.1.totalFailed else acc.1.totalFailed + 1 },
        acc.2.1 ++ [o.store], acc.2.2 ++ [o.backupTaken]))
    ({ planId := plan.planId, dryRun := dryRun, results := [], totalDeleted := 0,
       totalFailed := 0 }, [], [])

/-- A concrete Chrome operation used to exhibit the missing process
gate: its `browser_executable` is `chrome.exe`. -/
def chromeOpC2 : DeleteOperationM :=
  { browser := "Chrome", profile := "Default",
    dbPath := "C:/Users/u/AppData/Local/Google/Chrome/User Data/Default/Cookies",
    backupPath := "C:/backups/Chrome/Default/Cookies.20250101_000000.bak",
    browserExecutable := "chrome.exe",
    targets := [⟨"google.com".data, "%.google.com".data, 2⟩] }

/-- An unlocked, healthy environment. -/
def healthyEnv : OpEnv :=
  { locked := false, blockingProcs := [], dbExists := true, backupOk := true,
    backupErr := "", txFails := false, txErr := "", restoreOk := true }

/-! ## Whitelist engine (`src/core/whitelist.py`, `src/core/psl_loader.py`) -/

/-- Python `str.strip()` whitespace characters: space, tab, newline,
carriage return, vertical tab, form feed. -/
def isSpaceChar (c : Char) : Bool :=
  c.toNat = 32 || c.toNat = 9 || c.toNat = 10 || c.toNat = 13 ||
    c.toNat = 11 || c.toNat = 12

/-- Python `str.strip()`. -/
def trimStr (s : Str) : Str :=
  ((s.dropWhile isSpaceChar).reverse.dropWhile isSpaceChar).reverse

/-- Python `str.lower()` (ASCII; all values this engine handles are
ASCII). -/
def toLowerStr (s : Str) : Str := s.map foldChar

/-- The `while normalized.startswith("."): normalized = normalized[1:]`
loop of `normalize_value` (and `str.lstrip(".")` in the PSL loader). -/
def dropLeadingDots (s : Str) : Str := s.dropWhile (fun c => c = '.')

/-- The `WhitelistManager.normalize_value`: strip, lowercase, drop leading
dots. -/
def normalizeValue (v : Str) : Str := dropLeadingDots (toLowerStr (trimStr v))

/-- Python `str.split(".")`. -/
def splitOnDot (s : Str) : List Str :=
  s.foldr
    (fun c acc =>
      if c = '.' then [] :: acc
      else
        match acc with
        | [] => [[c]]
        | a :: rest => (c :: a) :: rest)
    [[]]

/-- Python `".".join(...)`. -/
def joinDots : List Str → Str
  | [] => []
  | [a] => a
  | a :: rest => a ++ '.' :: joinDots rest

/-- The label-suffix walk of `is_whitelisted`:
`a.b.c → b.c → c` including the full domain itself (`i = 0`). -/
def labelSuffixStrings (d : Str) : List Str :=
  (List.range (splitOnDot d).length).map (fun i => joinDots ((splitOnDot d).drop i))

def isLowerAlnum (c : Char) : Bool :=
  (97 ≤ c.toNat && c.toNat ≤ 122) || (48 ≤ c.toNat && c.toNat ≤ 57)

def isLabelChar (c : Char) : Bool := isLowerAlnum c || c.toNat = 45

/-- The `_DOMAIN_LABEL_PATTERN`: `^[a-z0-9]([a-z0-9-]*[a-z0-9])?$`. -/
def matchesLabelPattern (l : Str) : Bool :=
  !l.isEmpty && isLowerAlnum (l.headD ' ') && isLowerAlnum (l.getLastD ' ') &&
    l.all isLabelChar

def isDigitChar (c : Char) : Bool := 48 ≤ c.toNat && c.toNat ≤ 57

/-- One octet of `_IPV4_PATTERN`:
`25[0-5] | 2[0-4][0-9] | [01]?[0-9][0-9]?`. -/
def isIPv4Octet (s : Str) : Bool :=
  match s with
  | [a] => isDigitChar a
  | [a, b] => isDigitChar a && isDigitChar b
  | [a, b, c] =>
    isDigitChar a && isDigitChar b && isDigitChar c &&
      (a = '0' || a = '1' || (a = '2' && (b.toNat ≤ 52 || (b = '5' && c.toNat ≤ 53))))
  | _ => false

/-- The `_IPV4_PATTERN`: exactly four dot-separated octets. -/
def isIPv4 (s : Str) : Bool :=
  (splitOnDot s).length = 4 && (splitOnDot s).all isIPv4Octet

/-- Parsed Public Suffix List data (`PSLData`). -/
structure PSLData where
  suffixes : List Str
  wildcards : List Str
  exceptions : List Str
deriving DecidableEq, Repr

/-- The `_FALLBACK_SUFFIXES` from `psl_loader.py`. -/
def fallbackSuffixes : List Str :=
  (["com", "net", "org", "edu", "gov", "mil", "int", "info", "biz",
    "uk", "de", "fr", "jp", "cn", "au", "ca", "ru", "br", "in", "us",
    "es", "it", "nl", "be", "ch", "at", "pl", "se", "no", "dk", "fi",
    "pt", "ie", "nz", "za", "mx", "ar", "cl", "kr", "tw", "hk", "sg",
    "co.uk", "org.uk", "ac.uk", "gov.uk", "me.uk", "ltd.uk", "plc.uk",
    "com.au", "net.au", "org.au", "edu.au", "gov.au", "asn.au",
    "co.jp", "ne.jp", "or.jp", "ac.jp", "go.jp", "ed.jp",
    "com.br", "net.br", "org.br", "gov.br", "edu.br",
    "co.in", "net.in", "org.in", "gov.in", "ac.in",
    "co.nz", "net.nz", "org.nz", "govt.nz", "ac.nz",
    "co.za", "net.za", "org.za", "gov.za", "ac.za",
    "com.mx", "net.mx", "org.mx", "gob.mx", "edu.mx",
    "com.ar", "net.ar", "org.ar", "gob.ar", "edu.ar",
    "co.kr", "ne.kr", "or.kr", "go.kr", "ac.kr",
    "com.tw", "net.tw", "org.tw", "gov.tw", "edu.tw",
    "com.hk", "net.hk", "org.hk", "gov.hk", "edu.hk",
    "com.sg", "net.sg", "org.sg", "gov.sg", "edu.sg",
    "co.de", "com.de", "org.de",
    "co.fr", "com.fr", "org.fr",
    "co.it", "com.it", "org.it",
    "co.es", "com.es", "org.es",
    "co.nl", "com.nl", "org.nl",
    "co.be", "com.be", "org.be",
    "co.at", "or.at", "ac.at",
    "co.ch", "com.ch", "org.ch",
    "io", "co", "app", "dev", "ai", "me", "tv", "cc", "ws", "ly", "to",
    "eu", "asia", "mobi", "tel", "travel", "jobs", "museum", "coop",
    "github.io", "gitlab.io", "herokuapp.com", "netlify.app", "vercel.app",
    "azurewebsites.net", "cloudfront.net", "amazonaws.com",
    "blogspot.com", "wordpress.com", "tumblr.com"] : List String).map String.data

/-- The `load_public_suffixes()`: the repository ships no
`data/public_suffix_list.dat`, so the loader falls back to
`_FALLBACK_SUFFIXES` with empty wildcard and exception sets. -/
def loadedPSL : PSLData :=
  { suffixes := fallbackSuffixes, wildcards := [], exceptions := [] }

/-- The `psl_loader.is_public_suffix`: exceptions first, then direct suffix
membership, then the wildcard rule on the first label. -/
def isPublicSuffix (domain : Str) : Bool :=
  let d := dropLeadingDots (trimStr (toLowerStr domain))
  if d ∈ loadedPSL.exceptions then false
  else if d ∈ loadedPSL.suffixes then true
  else
    let labels := splitOnDot d
    if 2 ≤ labels.length then
      decide (joinDots labels.tail ∈ loadedPSL.wildcards)
    else false

/-- The three whitelist grammar prefixes. -/
inductive EntryKind
  | domain
  | exact
  | ip
deriving DecidableEq, Repr

/-- Split an entry into its grammar prefix and the raw value.  The Python
source iterates `VALID_WHITELIST_PREFIXES` (a frozenset) with `break` on
the first `startswith` hit; since no string starts with two of the three
prefixes, the iteration order is immaterial. -/
def parseEntryKind (e : Str) : Option (EntryKind × Str) :=
  if "domain:".data <+: e then some (.domain, e.drop 7)
  else if "exact:".data <+: e then some (.exact, e.drop 6)
  else if "ip:".data <+: e then some (.ip, e.drop 3)
  else none

/-- The `WhitelistManager.validate_entry` (error-message strings elided: only
the validity boolean is modelled).  The Python `labels == [""]` check is
subsumed: `split(".")` yields `[""]` only for the empty value, rejected
one line earlier. -/
def validateEntry (entry : Str) : Bool :=
  if entry.isEmpty then false
  else
    match parseEntryKind (trimStr entry) with
    | none => false
    | some (k, rawValue) =>
      let value := normalizeValue rawValue
      if value.isEmpty then false
      else
        match k with
        | .ip => isIPv4 value
        | _ =>
          let labels := splitOnDot value
          if labels.all (fun l => !l.isEmpty && l.length ≤ 63 && matchesLabelPattern l) then
            match k with
            | .domain =>
              if value ∈ loadedPSL.suffixes then false
              else if 2 ≤ labels.length then
                let twoPart := labels.dropLast.getLastD [] ++ '.' :: labels.getLastD []
                !(decide (value = twoPart) && decide (twoPart ∈ loadedPSL.suffixes))
              else true
            | .exact => !isPublicSuffix value
            | .ip => true
          else false

/-- The `WhitelistEntry`. -/
structure WhitelistEntryM where
  kind : EntryKind
  value : Str
  original : Str
  labelCount : Nat
deriving DecidableEq, Repr

/-- The `WhitelistManager`'s lookup structures: the exact-match set, the
IP-match set, the domain map (a Python `dict`, modelled as an
insertion-ordered association list with distinct keys), and the entry
list. -/
structure WhitelistManagerM where
  exactSet : List Str
  ipSet : List Str
  domainMap : List (Str × WhitelistEntryM)
  entries : List WhitelistEntryM
deriving DecidableEq, Repr

/-- The `WhitelistManager()` with no entries. -/
def emptyManager : WhitelistManagerM :=
  { exactSet := [], ipSet := [], domainMap := [], entries := [] }

/-- Python `set.add`. -/
def insertSet (s : List Str) (v : Str) : List Str :=
  if v ∈ s then s else s ++ [v]

/-- Python `set.discard`. -/
def removeSet (s : List Str) (v : Str) : List Str :=
  s.filter (fun x => x ≠ v)

/-- Python `dict.get`. -/
def lookupMap (m : List (Str × WhitelistEntryM)) (k : Str) : Option WhitelistEntryM :=
  match m with
  | [] => none
  | (k', v) :: rest => if k' = k then some v else lookupMap rest k

/-- Python `del d[k]`. -/
def removeMap (m : List (Str × WhitelistEntryM)) (k : Str) :
    List (Str × WhitelistEntryM) :=
  m.filter (fun p => p.1 ≠ k)

/-- The `WhitelistManager.add_entry`: validate, parse, and insert into the
lookup structure for the entry's kind.  For `domain:` entries the new
entry replaces an existing one for the same key only when its label
count is at least the existing one's (`>=` in the source; both are
derived from the same key, so the condition always holds there). -/
def addEntry (m : WhitelistManagerM) (entry : Str) : WhitelistManagerM × Bool :=
  if !validateEntry entry then (m, false)
  else
    match parseEntryKind (trimStr entry) with
    | none => (m, false)
    | some (k, rawValue) =>
      let value := normalizeValue rawValue
      let labelCount := match k with
        | .ip => 0
        | _ => (splitOnDot value).length
      let we : WhitelistEntryM :=
        { kind := k, value := value, original := trimStr entry, labelCount := labelCount }
      let m' :=
        match k with
        | .exact => { m with exactSet := insertSet m.exactSet value }
        | .ip => { m with ipSet := insertSet m.ipSet value }
        | .domain =>
          match lookupMap m.domainMap value with
          | none => { m with domainMap := m.domainMap ++ [(value, we)] }
          | some old =>
            if old.labelCount ≤ we.labelCount then
              let replaced := m.domainMap.map
                (fun (p : Str × WhitelistEntryM) => if p.1 = value then (value, we) else p)
              { m with domainMap := replaced }
            else m
      ({ m' with entries := m'.entries ++ [we] }, true)

/-- The `WhitelistManager.remove_entry`: parse, remove the value from the
structure of the entry's kind if present, and then drop every stored
entry with the same (kind, value) pair from the entry list. -/
def removeEntry (m : WhitelistManagerM) (entry : Str) : WhitelistManagerM × Bool :=
  match parseEntryKind (trimStr entry) with
  | none => (m, false)
  | some (k, rawValue) =>
    let value := normalizeValue rawValue
    let dropEntries (l : List WhitelistEntryM) : List WhitelistEntryM :=
      l.filter (fun e => !(decide (e.kind = k) && decide (e.value = value)))
    match k with
    | .exact =>
      if value ∈ m.exactSet then
        ({ m with exactSet := removeSet m.exactSet value,
                  entries := dropEntries m.entries }, true)
      else (m, false)
    | .ip =>
      if value ∈ m.ipSet then
        ({ m with ipSet := removeSet m.ipSet value,
                  entries := dropEntries m.entries }, true)
      else (m, false)
    | .domain =>
      if (lookupMap m.domainMap value).isSome then
        ({ m with domainMap := removeMap m.domainMap value,
                  entries := dropEntries m.entries }, true)
      else (m, false)

/-- The `WhitelistManager.is_whitelisted`: normalize the candidate, then in
priority order check the exact set, the IP set (only for IPv4 literals),
and finally walk the label suffixes from most to least specific against
the domain map. -/
def isWhitelisted (m : WhitelistManagerM) (domain : Str) : Bool :=
  if domain.isEmpty then false
  else
    let n := normalizeValue domain
    if n ∈ m.exactSet then true
    else if isIPv4 n && decide (n ∈ m.ipSet) then true
    else
      let parts := splitOnDot n
      (List.range parts.length).any
        (fun i => (lookupMap m.domainMap (joinDots (parts.drop i))).isSome)

/-! ## Lock resolver termination (`src/execution/lock_resolver.py`) -/

/-- Observable process-control actions of `terminate_browser`:
`psutil.Process.terminate()` (graceful), `psutil.wait_procs` and
`psutil.Process.kill()` (forceful). -/
inductive ProcAction
  | terminate (pid : Nat)
  | wait
  | kill (pid : Nat)
deriving DecidableEq, Repr

/-- Environment of one `terminate_browser` call: the pids
`get_browser_pids` returns on entry, which of them resolve to a live
`psutil.Process`, which are still alive after `wait_procs`, and what
`get_browser_pids` returns at the final verification. -/
structure TerminateEnv where
  pids : List Nat
  procExists : Nat → Bool
  aliveAfterWait : Nat → Bool
  remainingAfter : List Nat

/-- The `LockResolver.terminate_browser` as a trace of process actions plus
its boolean result: early-exit when no pids or no resolvable processes;
otherwise `terminate()` each process, wait, `kill()` every process still
alive after the wait, then verify via a fresh pid listing. -/
def terminateBrowser (env : TerminateEnv) : List ProcAction × Bool :=
  if env.pids.isEmpty then ([], true)
  else
    let processes := env.pids.filter env.procExists
    if processes.isEmpty then ([], true)
    else
      let termActs := processes.map ProcAction.terminate
      let alive := processes.filter env.aliveAfterWait
      let killActs := alive.map ProcAction.kill
      (termActs ++ ProcAction.wait :: killActs, env.remainingAfter.isEmpty)

/-- A browser process that survives the graceful wait. -/
def stubbornBrowserEnv : TerminateEnv :=
  { pids := [4242], procExists := fun _ => true, aliveAfterWait := fun _ => true,
    remainingAfter := [] }

/-! ## Backup retention cleanup (`src/execution/backup_manager.py`)

`cleanup_old_backups` iterates `rglob("*.bak")` and for each backup file
strictly older than the cutoff (`st_mtime < now - days*86400`) deletes
its `-wal`, `-shm` and `.meta` side files and then the backup itself;
afterwards `_cleanup_empty_dirs` removes directories bottom-up with
`rmdir`, which succeeds exactly on directories left without any content.
The loop is modelled extensionally as filters over the file list: no
side file of one backup is itself a `*.bak` file (the side suffixes are
not `.bak`), so the iteration order is immaterial. -/

/-- A file in the backup tree. -/
structure FsFile where
  path : String
  mtime : Int
deriving DecidableEq, Repr

/-- A `rglob("*.bak")` hit. -/
def isBakPath (p : String) : Bool := ".bak".data <:+ p.data

/-- A backup file strictly older than the cutoff. -/
def isOldBak (cutoff : Int) (f : FsFile) : Bool :=
  isBakPath f.path && f.mtime < cutoff

/-- The side-file suffixes deleted along with an old backup. -/
def sideSuffixes : List String := ["-wal", "-shm", ".meta"]

/-- Whether a path is a `-wal`/`-shm`/`.meta` side file of some old
backup in the tree (side files are deleted based on their backup's
mtime, not their own). -/
def isSideOfOldBak (files : List FsFile) (cutoff : Int) (p : String) : Bool :=
  files.any (fun b => isOldBak cutoff b &&
    sideSuffixes.any (fun suf => p = b.path ++ suf))

/-- The files left after the deletion loop. -/
def survivingFiles (files : List FsFile) (cutoff : Int) : List FsFile :=
  files.filter (fun f => !isOldBak cutoff f && !isSideOfOldBak files cutoff f.path)

/-- The directories left by the bottom-up `rmdir` walk: exactly those
with some remaining file strictly beneath them. -/
def prunedDirs (dirs : List String) (survivors : List FsFile) : List String :=
  dirs.filter (fun d => survivors.any (fun f => (d ++ "/").data <+: f.path.data))

/-- The `BackupManager.cleanup_old_backups`: reject a negative retention
with `ValueError`, otherwise delete old backups plus side files, prune
empty directories, and return the number of deleted backups. -/
def cleanupOldBackups (files : List FsFile) (dirs : List String) (now : Int)
    (retentionDays : Int) : Except String (List FsFile × List String × Nat) :=
  if retentionDays < 0 then .error "retention_days must be non-negative"
  else
    let cutoff := now - retentionDays * 86400
    let survivors := survivingFiles files cutoff
    .ok (survivors, prunedDirs dirs survivors,
         (files.filter (isOldBak cutoff)).length)

/-- Concrete backup tree for the C9 witness: one stale backup with a
newer `-wal` side file, one fresh backup, one directory with no
backups. -/
def witnessBackupFiles : List FsFile :=
  [{ path := "root/Chrome/Default/Cookies.20250101_000000.bak", mtime := 0 },
   { path := "root/Chrome/Default/Cookies.20250101_000000.bak-wal", mtime := 500000 },
   { path := "root/Chrome/Default/Cookies.20250301_000000.bak", mtime := 1000000 }]

/-- Directory skeleton for the C9 witness. -/
def witnessBackupDirs : List String :=
  ["root/Chrome", "root/Chrome/Default", "root/Edge"]

/-! # Theorems -/

theorem foldChar_of_domainChar {c : Char} (h : isDomainChar c = true) :
    foldChar c = c := by
  simp only [isDomainChar, Bool.or_eq_true, Bool.and_eq_true, decide_eq_true_eq] at h
  simp only [foldChar, ite_eq_right_iff]
  intro hc
  omega

theorem domainChar_ne_wild {c : Char} (h : isDomainChar c = true) :
    c ≠ '%' ∧ c ≠ '_' := by
  constructor <;> rintro rfl <;> exact absurd h (by decide)

theorem likeMatch_nil_left (s : Str) : likeMatch [] s = s.isEmpty := by
  simp [likeMatch]

/-- A pattern without wildcards matches exactly the strings equal to it up
to ASCII case folding. -/
theorem likeMatch_no_wild (p s : Str) (h : ∀ c ∈ p, c ≠ '%' ∧ c ≠ '_') :
    likeMatch p s = true ↔ p.map foldChar = s.map foldChar := by
  induction p generalizing s with
  | nil =>
    cases s <;> simp [likeMatch]
  | cons a ps ih =>
    have ha := h a (List.mem_cons_self a ps)
    have hps : ∀ c ∈ ps, c ≠ '%' ∧ c ≠ '_' := fun c hc => h c (List.mem_cons_of_mem a hc)
    cases s with
    | nil =>
      simp [likeMatch, ha.1]
    | cons b s' =>
      simp only [likeMatch, if_neg ha.1, List.map_cons, List.cons.injEq,
        Bool.and_eq_true, Bool.or_eq_true, decide_eq_true_eq]
      rw [ih s' hps]
      constructor
      · rintro ⟨hab, hrest⟩
        exact ⟨hab.resolve_left ha.2, hrest⟩
      · rintro ⟨hab, hrest⟩
        exact ⟨Or.inr hab, hrest⟩

/-- The `scanSuffixes` succeeds iff the matcher accepts some suffix. -/
theorem scanSuffixes_iff (m : Str → Bool) (s : Str) :
    scanSuffixes m s = true ↔ ∃ t, t <:+ s ∧ m t = true := by
  induction s with
  | nil =>
    simp only [scanSuffixes]
    constructor
    · intro h
      exact ⟨[], List.suffix_refl [], h⟩
    · rintro ⟨t, ht, hm⟩
      rw [List.suffix_nil] at ht
      subst ht
      exact hm
  | cons c s' ih =>
    simp only [scanSuffixes, Bool.or_eq_true, ih]
    constructor
    · rintro (h | ⟨t, ht, hm⟩)
      · exact ⟨c :: s', List.suffix_refl _, h⟩
      · exact ⟨t, ht.trans (List.suffix_cons c s'), hm⟩
    · rintro ⟨t, ht, hm⟩
      rcases List.suffix_cons_iff.mp ht with h | h
      · subst h
        exact Or.inl hm
      · exact Or.inr ⟨t, h, hm⟩

/-- A `%`-headed pattern matches `s` iff the rest of the pattern matches
some suffix of `s`. -/
theorem likeMatch_percent (ps s : Str) :
    likeMatch ('%' :: ps) s = true ↔ ∃ t, t <:+ s ∧ likeMatch ps t = true := by
  have h : likeMatch ('%' :: ps) s = scanSuffixes (likeMatch ps) s := by
    cases s <;> simp [likeMatch]
  rw [h, scanSuffixes_iff]

theorem map_foldChar_id {l : Str} (h : l.all isDomainChar = true) :
    l.map foldChar = l := by
  induction l with
  | nil => rfl
  | cons a t ih =>
    simp only [List.all_cons, Bool.and_eq_true] at h
    simp [foldChar_of_domainChar h.1, ih h.2]

/-- A wildcard-free pattern of domain characters matches only itself. -/
theorem likeMatch_domain_eq {p s : Str} (hp : p.all isDomainChar = true)
    (hs : s.all isDomainChar = true) :
    likeMatch p s = true ↔ p = s := by
  rw [likeMatch_no_wild p s (fun c hc => domainChar_ne_wild (by
    rw [List.all_eq_true] at hp; exact hp c hc))]
  rw [map_foldChar_id hp, map_foldChar_id hs]

/-- Rows equal to a key that the filter keeps are counted unchanged. -/
theorem count_filter_keep {l : List Str} {p : Str → Bool} {a : Str}
    (h : p a = true) : (l.filter p).count a = l.count a := by
  induction l with
  | nil => rfl
  | cons b t ih =>
    by_cases hb : b = a
    · subst hb
      rw [List.filter_cons_of_pos h, List.count_cons_self, List.count_cons_self, ih]
    · rw [List.count_cons_of_ne (Ne.symm hb)]
      cases hpb : p b with
      | true => rw [List.filter_cons_of_pos hpb, List.count_cons_of_ne (Ne.symm hb), ih]
      | false => rw [List.filter_cons_of_neg (by simp [hpb]), ih]

/-- C1: for two domains where the first is a proper substring but not a
label-suffix of the second, the LIKE pattern the planner builds from any
raw host-key form of the first (`%`-prefixed for a leading-dot key,
literal otherwise) matches no host key belonging to the second, so a
delete targeting the first leaves the second's row count unchanged. -/
theorem substring_not_label_suffix_no_cross_delete
    (d1 d2 : Str)
    (h1 : d1.all isDomainChar = true) (h2 : d2.all isDomainChar = true)
    (hd1 : d1.take 1 ≠ ['.']) (hd2 : d2.take 1 ≠ ['.'])
    (hsub : d1 <:+: d2) (hne : d1 ≠ d2)
    (hlab : ¬ ('.' :: d1 <:+ d2))
    (hk1 hk2 : Str)
    (hhk1 : hk1 = d1 ∨ hk1 = '.' :: d1)
    (hhk2 : hk2 = d2 ∨ hk2 = '.' :: d2) :
    likeMatch (buildLikePattern hk1) hk2 = false ∧
    ∀ store : Store,
      ((applyDelete store (buildLikePattern hk1)).1).count hk2 = store.count hk2 := by
  have hk2all : hk2.all isDomainChar = true := by
    rcases hhk2 with h | h <;> rw [h]
    · exact h2
    · rw [List.all_cons, h2]
      decide
  have hd1all : ('.' :: d1).all isDomainChar = true := by
    rw [List.all_cons, h1]
    decide
  have hmain : likeMatch (buildLikePattern hk1) hk2 = false := by
    rcases hhk1 with h | h <;> rw [h]
    · -- dot-less host key: literal pattern
      have hbp : buildLikePattern d1 = d1 := by
        simp [buildLikePattern, hd1]
      rw [hbp]
      cases hval : likeMatch d1 hk2 with
      | false => rfl
      | true =>
        exfalso
        have heq := (likeMatch_domain_eq h1 hk2all).mp hval
        rcases hhk2 with h2eq | h2eq <;> rw [h2eq] at heq
        · exact hne heq
        · apply hd1
          rw [heq]
          rfl
    · -- leading-dot host key: `%`-prefixed pattern
      have hbp : buildLikePattern ('.' :: d1) = '%' :: '.' :: d1 := by
        simp [buildLikePattern]
      rw [hbp]
      cases hval : likeMatch ('%' :: '.' :: d1) hk2 with
      | false => rfl
      | true =>
        exfalso
        obtain ⟨t, ht, hm⟩ := (likeMatch_percent ('.' :: d1) hk2).mp hval
        have htall : t.all isDomainChar = true := by
          rw [List.all_eq_true] at hk2all ⊢
          exact fun c hc => hk2all c (ht.subset hc)
        have heq := (likeMatch_domain_eq hd1all htall).mp hm
        subst heq
        rcases hhk2 with h2eq | h2eq <;> rw [h2eq] at ht
        · exact hlab ht
        · rcases List.suffix_cons_iff.mp ht with hcase | hcase
          · exact hne (by injection hcase)
          · exact hlab hcase
  refine ⟨hmain, fun store => ?_⟩
  exact count_filter_keep (by simp [hmain])

/-- Witness for C1 at the spec's own fixture: `ample.com` vs
`trample.com`. -/
theorem substring_not_label_suffix_no_cross_delete_witness :
    likeMatch (buildLikePattern ('.' :: "ample.com".data)) "trample.com".data = false ∧
    ((applyDelete ["trample.com".data] (buildLikePattern ('.' :: "ample.com".data))).1).count
        "trample.com".data = (["trample.com".data] : Store).count "trample.com".data := by
  have h := substring_not_label_suffix_no_cross_delete "ample.com".data "trample.com".data
    (by decide) (by decide) (by decide) (by decide) (by decide) (by decide) (by decide)
    ('.' :: "ample.com".data) "trample.com".data (Or.inr rfl) (Or.inl rfl)
  exact ⟨h.1, h.2 ["trample.com".data]⟩

/-- Folding `add_operation` preserves the running-total bookkeeping. -/
theorem addOperation_fold (ops : List DeleteOperationM) (p : DeletePlanM) :
    (ops.foldl addOperation p).operations = p.operations ++ ops ∧
    (ops.foldl addOperation p).totalCookiesToDelete =
      p.totalCookiesToDelete + (ops.map (fun op => (op.targets.map (·.count)).sum)).sum := by
  induction ops generalizing p with
  | nil => simp
  | cons o rest ih =>
    have h := ih (addOperation p o)
    simp only [List.foldl_cons]
    constructor
    · rw [h.1]
      simp [addOperation]
    · rw [h.2]
      simp only [addOperation, List.map_cons, List.sum_cons]
      ring

/-- Last `add_operation` fixes `affected_profiles` to the operation
count. -/
theorem addOperation_fold_affected (ops : List DeleteOperationM) (p : DeletePlanM)
    (haff : p.affectedProfiles = p.operations.length) :
    (ops.foldl addOperation p).affectedProfiles =
      (ops.foldl addOperation p).operations.length := by
  induction ops generalizing p with
  | nil => simpa using haff
  | cons o rest ih =>
    simp only [List.foldl_cons]
    exact ih (addOperation p o) (by simp [addOperation])

/-- C10: after `DeletePlan.create` and any sequence of `add_operation`
calls, `total_cookies_to_delete` is the sum over all operations of their
targets' counts and `affected_profiles` is the number of operations. -/
theorem plan_running_totals (pid : String) (ts : Int) (dry : Bool)
    (ops : List DeleteOperationM) :
    (ops.foldl addOperation (createPlan pid ts dry)).totalCookiesToDelete
        = (ops.map (fun op => (op.targets.map (·.count)).sum)).sum ∧
    (ops.foldl addOperation (createPlan pid ts dry)).affectedProfiles = ops.length := by
  have h := addOperation_fold ops (createPlan pid ts dry)
  have ha := addOperation_fold_affected ops (createPlan pid ts dry) rfl
  refine ⟨?_, ?_⟩
  · rw [h.2]
    simp [createPlan]
  · rw [ha, h.1]
    simp [createPlan]

/-- C4 (amended): a plan with the single target {pattern `P`, count `N`}
over a store with `N` matching and `M` non-matching rows: the real run
deletes exactly the `N` matching rows and leaves the `M` others as the
resulting store; the dry run deletes nothing, takes no backup, counts
the matches by querying the store (which stays untouched) and reports a
would-delete total of `N` while performing zero actual deletions. -/
theorem single_target_plan_exec
    (pid : String) (ts : Int) (op : DeleteOperationM) (env : OpEnv) (store : Store)
    (dom P : Str)
    (hT : op.targets = [⟨dom, P, ((store.filter (fun r => likeMatch P r)).length : Int)⟩])
    (hlock : env.locked = false) (hdb : env.dbExists = true)
    (hbk : env.backupOk = true) (htx : env.txFails = false) :
    (execute (addOperation (createPlan pid ts false) op) [(env, store)] false).1.totalDeleted
        = ((store.filter (fun r => likeMatch P r)).length : Int) ∧
    (execute (addOperation (createPlan pid ts false) op) [(env, store)] false).1.totalFailed = 0 ∧
    (execute (addOperation (createPlan pid ts false) op) [(env, store)] false).2.1
        = [store.filter (fun r => !likeMatch P r)] ∧
    (execute (addOperation (createPlan pid ts false) op) [(env, store)] true).1.totalDeleted
        = ((store.filter (fun r => likeMatch P r)).length : Int) ∧
    (execute (addOperation (createPlan pid ts false) op) [(env, store)] true).1.totalFailed = 0 ∧
    (execute (addOperation (createPlan pid ts false) op) [(env, store)] true).1.dryRun = true ∧
    (execute (addOperation (createPlan pid ts false) op) [(env, store)] true).2.1 = [store] ∧
    (execute (addOperation (createPlan pid ts false) op) [(env, store)] true).2.2 = [none] := by
  simp [execute, createPlan, addOperation, executeOperation, hlock, hdb, hbk, htx, hT,
    applyTargets, applyDelete, countTargets]

/-- Witness for C4 on a concrete three-row store. -/
theorem single_target_plan_exec_witness :
    (execute (addOperation (createPlan "p" 0 false)
        { chromeOpC2 with targets := [⟨"google.com".data, "%.google.com".data, 2⟩] })
        [(healthyEnv, [".google.com".data, "x.google.com".data, "leads.com".data])]
        false).1.totalDeleted = 2 ∧
    (execute (addOperation (createPlan "p" 0 false)
        { chromeOpC2 with targets := [⟨"google.com".data, "%.google.com".data, 2⟩] })
        [(healthyEnv, [".google.com".data, "x.google.com".data, "leads.com".data])]
        true).2.1 = [[".google.com".data, "x.google.com".data, "leads.com".data]] := by
  have h := single_target_plan_exec "p" 0
    { chromeOpC2 with targets := [⟨"google.com".data, "%.google.com".data, 2⟩] }
    healthyEnv [".google.com".data, "x.google.com".data, "leads.com".data]
    "google.com".data "%.google.com".data (by decide) rfl rfl rfl rfl
  exact ⟨h.1.trans (by decide), h.2.2.2.2.2.2.1⟩

/-- C4 counterexample to the claim as stated: the dry run does not count
via a disposable read-only copy of the store — it creates no file copy
at all and the paths it opens with `sqlite3.connect` are both the live
database path itself. -/
theorem dry_run_reads_live_store_not_a_copy :
    (executeOperation chromeOpC2 healthyEnv [".google.com".data] true).copiesMade = [] ∧
    (executeOperation chromeOpC2 healthyEnv [".google.com".data] true).connects
        = [chromeOpC2.dbPath, chromeOpC2.dbPath] ∧
    (executeOperation chromeOpC2 healthyEnv [".google.com".data] true).result.deletedCount = 1 := by
  refine ⟨rfl, rfl, by decide⟩

/-- C3: when the backup succeeded and the delete transaction then raises,
the transaction is rolled back and a restore from the just-taken backup
is attempted, so the store after the failed attempt equals the store
before it (in particular the row count is unchanged and the file is
never left partially mutated), and the operation reports failure —
whatever the restore outcome `env.restoreOk` is. -/
theorem failed_transaction_rolls_back
    (op : DeleteOperationM) (env : OpEnv) (store : Store)
    (hlock : env.locked = false) (hbk : env.backupOk = true) (htx : env.txFails = true) :
    (executeOperation op env store false).store = store ∧
    (executeOperation op env store false).result.success = false ∧
    (executeOperation op env store false).restoreAttempted = true ∧
    (executeOperation op env store false).backupTaken = some store := by
  simp [executeOperation, hlock, hbk, htx]

/-- Witness for C3 with a failing transaction over a one-row store. -/
theorem failed_transaction_rolls_back_witness :
    (executeOperation chromeOpC2 { healthyEnv with txFails := true }
        ["a.com".data] false).store = ["a.com".data] ∧
    (executeOperation chromeOpC2 { healthyEnv with txFails := true }
        ["a.com".data] false).result.success = false ∧
    (executeOperation chromeOpC2 { healthyEnv with txFails := true }
        ["a.com".data] false).restoreAttempted = true ∧
    (executeOperation chromeOpC2 { healthyEnv with txFails := true }
        ["a.com".data] false).backupTaken = some ["a.com".data] :=
  failed_transaction_rolls_back chromeOpC2 { healthyEnv with txFails := true }
    ["a.com".data] rfl rfl rfl

/-- C2 (code evidence): `DeleteExecutor.execute` has no process gate —
it consults no set of running browsers at all, so for any running-browser
set containing the plan's own `chrome.exe` it still performs the
per-operation deletes (here: two rows removed) instead of aborting the
plan with a typed process-gate error.  (`ProcessGateError` is imported by
`src/execution/__init__.py` and demanded by the integration tests but is
not defined in `delete_executor.py`.) -/
theorem executor_has_no_process_gate (running : List String)
    (hrun : "chrome.exe" ∈ running) :
    chromeOpC2.browserExecutable ∈ running ∧
    (execute (addOperation (createPlan "plan-1" 0 false) chromeOpC2)
        [(healthyEnv, [".google.com".data, "ads.google.com".data, "example.org".data])]
        false).1.totalDeleted = 2 ∧
    (execute (addOperation (createPlan "plan-1" 0 false) chromeOpC2)
        [(healthyEnv, [".google.com".data, "ads.google.com".data, "example.org".data])]
        false).2.1 = [["example.org".data]] := by
  exact ⟨hrun, by decide, by decide⟩

/-- Witness for the C2 evidence theorem with `chrome.exe` running. -/
theorem executor_has_no_process_gate_witness :
    ("chrome.exe" ∈ (["chrome.exe"] : List String)) ∧
    (execute (addOperation (createPlan "plan-1" 0 false) chromeOpC2)
        [(healthyEnv, [".google.com".data, "ads.google.com".data, "example.org".data])]
        false).1.totalDeleted = 2 :=
  ⟨List.mem_singleton.mpr rfl,
   (executor_has_no_process_gate ["chrome.exe"] (List.mem_singleton.mpr rfl)).2.1⟩

theorem splitOnDot_cons (c : Char) (s : Str) :
    splitOnDot (c :: s) =
      (if c = '.' then [] :: splitOnDot s
       else
        match splitOnDot s with
        | [] => [[c]]
        | a :: rest => (c :: a) :: rest) := rfl

theorem splitOnDot_ne_nil (s : Str) : splitOnDot s ≠ [] := by
  cases s with
  | nil => simp [splitOnDot]
  | cons c rest =>
    rw [splitOnDot_cons]
    by_cases hc : c = '.'
    · simp [hc]
    · rw [if_neg hc]
      cases splitOnDot rest <;> simp

theorem joinDots_cons_head (c : Char) (a : Str) (rest : List Str) :
    joinDots ((c :: a) :: rest) = c :: joinDots (a :: rest) := by
  cases rest <;> rfl

/-- Splitting on dots and joining with dots round-trips. -/
theorem joinDots_splitOnDot (s : Str) : joinDots (splitOnDot s) = s := by
  induction s with
  | nil => rfl
  | cons c rest ih =>
    rw [splitOnDot_cons]
    obtain ⟨x, xs, hx⟩ : ∃ x xs, splitOnDot rest = x :: xs := by
      cases h : splitOnDot rest with
      | nil => exact absurd h (splitOnDot_ne_nil rest)
      | cons x xs => exact ⟨x, xs, rfl⟩
    by_cases hc : c = '.'
    · subst hc
      rw [if_pos rfl, hx]
      show '.' :: joinDots (x :: xs) = '.' :: rest
      rw [← hx, ih]
    · rw [if_neg hc, hx, joinDots_cons_head, ← hx, ih]

/-- The whole domain is among its own label suffixes (`i = 0`). -/
theorem self_mem_labelSuffixStrings (n : Str) : n ∈ labelSuffixStrings n := by
  unfold labelSuffixStrings
  refine List.mem_map.mpr ⟨0, ?_, ?_⟩
  · exact List.mem_range.mpr (List.length_pos.mpr (splitOnDot_ne_nil n))
  · simpa using joinDots_splitOnDot n

theorem lookupMap_singleton_isSome (v : Str) (we : WhitelistEntryM) (key : Str) :
    (lookupMap [(v, we)] key).isSome = true ↔ v = key := by
  by_cases h : v = key <;> simp [lookupMap, h]

theorem lookupMap_eq_none_iff (l : List (Str × WhitelistEntryM)) (key : Str) :
    lookupMap l key = none ↔ ∀ p ∈ l, p.1 ≠ key := by
  induction l with
  | nil => simp [lookupMap]
  | cons p rest ih =>
    by_cases h : p.1 = key
    · constructor
      · intro hl
        rw [show p = (p.1, p.2) from rfl] at hl
        simp [lookupMap, h] at hl
      · intro hall
        exact absurd h (hall p (List.mem_cons_self p rest))
    · rw [show p = (p.1, p.2) from rfl]
      simp only [lookupMap, if_neg h, ih]
      constructor
      · intro hall q hq
        rcases List.mem_cons.mp hq with rfl | hq'
        · exact h
        · exact hall q hq'
      · intro hall q hq
        exact hall q (List.mem_cons_of_mem _ hq)

theorem lookupMap_append_of_none (l1 l2 : List (Str × WhitelistEntryM)) (key : Str)
    (h : lookupMap l1 key = none) :
    lookupMap (l1 ++ l2) key = lookupMap l2 key := by
  induction l1 with
  | nil => rfl
  | cons p rest ih =>
    rw [show p = (p.1, p.2) from rfl] at h ⊢
    by_cases hp : p.1 = key
    · simp [lookupMap, hp] at h
    · simp only [List.cons_append, lookupMap, if_neg hp] at h ⊢
      exact ih h

/-- A valid entry's normalized value is non-empty. -/
theorem validateEntry_value_ne_nil {e raw : Str} {k : EntryKind}
    (hp : parseEntryKind (trimStr e) = some (k, raw))
    (hv : validateEntry e = true) : normalizeValue raw ≠ [] := by
  intro hraw
  rw [validateEntry] at hv
  split at hv
  · exact Bool.noConfusion hv
  · rw [hp] at hv
    simp only [hraw, List.isEmpty_nil, if_true] at hv
    exact Bool.noConfusion hv

/-- A valid `ip:` entry's normalized value is an IPv4 literal. -/
theorem validateEntry_ip_isIPv4 {e raw : Str}
    (hp : parseEntryKind (trimStr e) = some (.ip, raw))
    (hv : validateEntry e = true) : isIPv4 (normalizeValue raw) = true := by
  rw [validateEntry] at hv
  split at hv
  · exact Bool.noConfusion hv
  · rw [hp] at hv
    simp only at hv
    split at hv
    · exact Bool.noConfusion hv
    · exact hv

/-- The lookup fields of the manager after adding one entry to the empty
manager. -/
theorem addEntry_empty_fields {e raw : Str} {k : EntryKind}
    (hp : parseEntryKind (trimStr e) = some (k, raw))
    (hv : validateEntry e = true) :
    (addEntry emptyManager e).1.exactSet
        = (if k = .exact then [normalizeValue raw] else []) ∧
    (addEntry emptyManager e).1.ipSet
        = (if k = .ip then [normalizeValue raw] else []) ∧
    (addEntry emptyManager e).1.domainMap
        = (if k = .domain then
            [(normalizeValue raw,
              { kind := .domain, value := normalizeValue raw, original := trimStr e,
                labelCount := (splitOnDot (normalizeValue raw)).length })]
           else []) := by
  cases k <;> simp [addEntry, hv, hp, emptyManager, insertSet, lookupMap]

/-- The `is_whitelisted` depends only on the three lookup structures. -/
theorem isWhitelisted_eq_of_fields (m m' : WhitelistManagerM) (d : Str)
    (h1 : m.exactSet = m'.exactSet) (h2 : m.ipSet = m'.ipSet)
    (h3 : m.domainMap = m'.domainMap) :
    isWhitelisted m d = isWhitelisted m' d := by
  simp [isWhitelisted, h1, h2, h3]

/-- C5: with a whitelist holding exactly the entry `domain:X`,
`is_whitelisted(D)` holds iff `X` is `D` itself or one of `D`'s label
suffixes (`a.b.c → b.c → c`); with `exact:X` only `D = X` is protected;
with `ip:X` only the literal `X` is protected.  The priority order
(exact set, then IP set, then the most-to-least-specific domain-map
walk) is the structure of `isWhitelisted` itself.  Values are compared
after `normalize_value`, which the manager applies to both entry values
and candidates. -/
theorem whitelist_matching_semantics
    (eD eE eI rawD rawE rawI : Str)
    (hpD : parseEntryKind (trimStr eD) = some (.domain, rawD))
    (hvD : validateEntry eD = true)
    (hpE : parseEntryKind (trimStr eE) = some (.exact, rawE))
    (hvE : validateEntry eE = true)
    (hpI : parseEntryKind (trimStr eI) = some (.ip, rawI))
    (hvI : validateEntry eI = true)
    (D : Str) :
    (isWhitelisted (addEntry emptyManager eD).1 D = true ↔
      (normalizeValue D = normalizeValue rawD ∨
        normalizeValue rawD ∈ labelSuffixStrings (normalizeValue D))) ∧
    (isWhitelisted (addEntry emptyManager eE).1 D = true ↔
      normalizeValue D = normalizeValue rawE) ∧
    (isWhitelisted (addEntry emptyManager eI).1 D = true ↔
      normalizeValue D = normalizeValue rawI) := by
  obtain ⟨hfD1, hfD2, hfD3⟩ := addEntry_empty_fields hpD hvD
  obtain ⟨hfE1, hfE2, hfE3⟩ := addEntry_empty_fields hpE hvE
  obtain ⟨hfI1, hfI2, hfI3⟩ := addEntry_empty_fields hpI hvI
  simp only [reduceCtorEq, reduceIte] at hfD1 hfD2 hfD3 hfE1 hfE2 hfE3 hfI1 hfI2 hfI3
  have hvDne := validateEntry_value_ne_nil hpD hvD
  have hvEne := validateEntry_value_ne_nil hpE hvE
  have hvIne := validateEntry_value_ne_nil hpI hvI
  have hnil : normalizeValue ([] : Str) = [] := rfl
  have hlssnil : labelSuffixStrings ([] : Str) = [[]] := rfl
  refine ⟨?_, ?_, ?_⟩
  · -- domain: entry
    cases hD : D.isEmpty
    · -- D non-empty
      simp only [isWhitelisted, hfD1, hfD2, hfD3, hD, Bool.false_eq_true, if_false,
        List.not_mem_nil, decide_False, Bool.and_false, List.any_eq_true,
        List.mem_range]
      constructor
      · rintro ⟨i, hi, hsome⟩
        refine Or.inr (List.mem_map.mpr ⟨i, List.mem_range.mpr hi, ?_⟩)
        exact ((lookupMap_singleton_isSome _ _ _).mp hsome).symm
      · intro h
        have hmem : normalizeValue rawD ∈ labelSuffixStrings (normalizeValue D) := by
          rcases h with h | h
          · rw [← h]
            exact self_mem_labelSuffixStrings _
          · exact h
        obtain ⟨i, hi, heq⟩ := List.mem_map.mp hmem
        exact ⟨i, List.mem_range.mp hi, (lookupMap_singleton_isSome _ _ _).mpr heq.symm⟩
    · -- D empty
      have hDnil : D = [] := by
        cases D with
        | nil => rfl
        | cons a b => simp at hD
      subst hDnil
      simp only [isWhitelisted, hD, if_pos rfl, hnil, hlssnil, List.mem_singleton]
      constructor
      · intro h
        exact Bool.noConfusion h
      · rintro (h | h)
        · exact absurd h.symm hvDne
        · exact absurd h hvDne
  · -- exact: entry
    cases hD : D.isEmpty
    · by_cases hn : normalizeValue D = normalizeValue rawE
      · simp [isWhitelisted, hfE1, hfE2, hfE3, hD, hn]
      · simp [isWhitelisted, hfE1, hfE2, hfE3, hD, hn, lookupMap]
    · have hDnil : D = [] := by
        cases D with
        | nil => rfl
        | cons a b => simp at hD
      subst hDnil
      simp only [isWhitelisted, hD, if_pos rfl, hnil]
      constructor
      · intro h
        exact Bool.noConfusion h
      · intro h
        exact absurd h.symm hvEne
  · -- ip: entry
    cases hD : D.isEmpty
    · by_cases hn : normalizeValue D = normalizeValue rawI
      · have hip := validateEntry_ip_isIPv4 hpI hvI
        simp [isWhitelisted, hfI1, hfI2, hfI3, hD, hn, hip]
      · simp [isWhitelisted, hfI1, hfI2, hfI3, hD, hn, lookupMap]
    · have hDnil : D = [] := by
        cases D with
        | nil => rfl
        | cons a b => simp at hD
      subst hDnil
      simp only [isWhitelisted, hD, if_pos rfl, hnil]
      constructor
      · intro h
        exact Bool.noConfusion h
      · intro h
        exact absurd h.symm hvIne

/-- Witness for C5: `domain:google.com` protects `mail.google.com`,
`exact:host.example` protects only itself, `ip:192.168.1.1` protects the
literal address. -/
theorem whitelist_matching_semantics_witness :
    isWhitelisted (addEntry emptyManager "domain:google.com".data).1 "mail.google.com".data
      = true ∧
    isWhitelisted (addEntry emptyManager "exact:host.example".data).1 "host.example".data
      = true ∧
    isWhitelisted (addEntry emptyManager "exact:host.example".data).1 "sub.host.example".data
      = false ∧
    isWhitelisted (addEntry emptyManager "ip:192.168.1.1".data).1 "192.168.1.1".data
      = true := by
  have h := fun D => whitelist_matching_semantics
    "domain:google.com".data "exact:host.example".data "ip:192.168.1.1".data
    "google.com".data "host.example".data "192.168.1.1".data
    rfl (by decide) rfl (by decide) rfl (by decide) D
  refine ⟨(h _).1.mpr (by decide), (h _).2.1.mpr (by decide), ?_, (h _).2.2.mpr (by decide)⟩
  have := (h "sub.host.example".data).2.1
  cases hval : isWhitelisted (addEntry emptyManager "exact:host.example".data).1
      "sub.host.example".data
  · rfl
  · exact absurd (this.mp hval) (by decide)

theorem domainChar_not_space {c : Char} (h : isDomainChar c = true) :
    isSpaceChar c = false := by
  simp only [isDomainChar, Bool.or_eq_true, Bool.and_eq_true, decide_eq_true_eq] at h
  simp only [isSpaceChar, Bool.or_eq_false_iff, decide_eq_false_iff_not]
  omega

theorem labelChar_domainChar {c : Char} (h : isLabelChar c = true) :
    isDomainChar c = true := by
  simp only [isLabelChar, isLowerAlnum, Bool.or_eq_true, Bool.and_eq_true,
    decide_eq_true_eq] at h
  simp only [isDomainChar, Bool.or_eq_true, Bool.and_eq_true, decide_eq_true_eq]
  omega

theorem lowerAlnum_ne_dot {c : Char} (h : isLowerAlnum c = true) : c ≠ '.' := by
  simp only [isLowerAlnum, Bool.or_eq_true, Bool.and_eq_true, decide_eq_true_eq] at h
  intro hc
  subst hc
  revert h
  decide

theorem labelChar_ne_dot {c : Char} (h : isLabelChar c = true) : c ≠ '.' := by
  simp only [isLabelChar, Bool.or_eq_true] at h
  rcases h with h | h
  · exact lowerAlnum_ne_dot h
  · intro hc
    subst hc
    revert h
    decide

theorem dropWhile_eq_self_of_not {p : Char → Bool} {s : Str}
    (h : ∀ c ∈ s, p c = false) : s.dropWhile p = s := by
  cases s with
  | nil => rfl
  | cons c rest =>
    rw [List.dropWhile_cons, h c (List.mem_cons_self c rest)]
    simp

theorem trimStr_eq_self {s : Str} (h : ∀ c ∈ s, isSpaceChar c = false) :
    trimStr s = s := by
  unfold trimStr
  rw [dropWhile_eq_self_of_not h,
    dropWhile_eq_self_of_not (fun c hc => h c (List.mem_reverse.mp hc)),
    List.reverse_reverse]

/-- The `normalize_value` is the identity on dot-less-headed strings of
domain characters (lowercase, no whitespace, no leading dot). -/
theorem normalizeValue_eq_self {s : Str} (hall : s.all isDomainChar = true)
    (hd : s.take 1 ≠ ['.']) : normalizeValue s = s := by
  have h1 : ∀ c ∈ s, isSpaceChar c = false :=
    fun c hc => domainChar_not_space (List.all_eq_true.mp hall c hc)
  unfold normalizeValue
  rw [trimStr_eq_self h1]
  unfold toLowerStr
  rw [map_foldChar_id hall]
  cases s with
  | nil => rfl
  | cons c rest =>
    unfold dropLeadingDots
    rw [List.dropWhile_cons]
    have hc : ¬(c = '.') := by
      intro hcc
      subst hcc
      exact hd rfl
    simp [hc]

/-- The `split(".")` peels off a dot-free first label. -/
theorem splitOnDot_append (a b : Str) (h : ∀ c ∈ a, c ≠ '.') :
    splitOnDot (a ++ '.' :: b) = a :: splitOnDot b := by
  induction a with
  | nil =>
    rw [List.nil_append, splitOnDot_cons, if_pos rfl]
  | cons c a' ih =>
    have hc : c ≠ '.' := h c (List.mem_cons_self c a')
    have ih' := ih (fun x hx => h x (List.mem_cons_of_mem _ hx))
    rw [List.cons_append, splitOnDot_cons, if_neg hc, ih']

set_option maxRecDepth 8000 in
/-- Well-formedness of every fallback public suffix: domain characters
only, no leading dot, non-empty, and all labels pass the per-label
validation checks. -/
theorem fallbackSuffixes_wf :
    ∀ S ∈ loadedPSL.suffixes,
      S.all isDomainChar = true ∧ S.take 1 ≠ ['.'] ∧ S ≠ [] ∧
      (splitOnDot S).all
        (fun l => !l.isEmpty && l.length ≤ 63 && matchesLabelPattern l) = true := by
  decide

/-- Every loaded public suffix satisfies `is_public_suffix`. -/
theorem isPublicSuffix_of_mem {S : Str} (hS : S ∈ loadedPSL.suffixes) :
    isPublicSuffix S = true := by
  obtain ⟨hall, hhead, -, -⟩ := fallbackSuffixes_wf S hS
  have h1 : ∀ c ∈ S, isSpaceChar c = false :=
    fun c hc => domainChar_not_space (List.all_eq_true.mp hall c hc)
  have hid : dropLeadingDots (trimStr (toLowerStr S)) = S := by
    unfold toLowerStr
    rw [map_foldChar_id hall, trimStr_eq_self h1]
    cases S with
    | nil => rfl
    | cons c rest =>
      unfold dropLeadingDots
      rw [List.dropWhile_cons]
      have hc : ¬(c = '.') := by
        intro hcc
        subst hcc
        exact hhead rfl
      simp [hc]
  unfold isPublicSuffix
  rw [hid]
  rw [if_neg (by simp [loadedPSL]), if_pos hS]

theorem parseEntryKind_domain_append (v : Str) :
    parseEntryKind ("domain:".data ++ v) = some (.domain, v) := by
  unfold parseEntryKind
  rw [if_pos (List.prefix_append _ _)]
  rw [show (7 : Nat) = ("domain:".data).length from rfl, List.drop_left]

theorem parseEntryKind_exact_append (v : Str) :
    parseEntryKind ("exact:".data ++ v) = some (.exact, v) := by
  unfold parseEntryKind
  rw [if_neg, if_pos (List.prefix_append _ _)]
  · rw [show (6 : Nat) = ("exact:".data).length from rfl, List.drop_left]
  · rintro ⟨u, hu⟩
    have hu' : 'd' :: ("omain:".data ++ u) = 'e' :: ("xact:".data ++ v) := hu
    injection hu' with h1 _
    exact absurd h1 (by decide)

theorem addEntry_snd_of_invalid {m : WhitelistManagerM} {e : Str}
    (h : validateEntry e = false) : (addEntry m e).2 = false := by
  simp [addEntry, h]

theorem addEntry_snd_of_valid {m : WhitelistManagerM} {e raw : Str} {k : EntryKind}
    (hp : parseEntryKind (trimStr e) = some (k, raw))
    (hv : validateEntry e = true) : (addEntry m e).2 = true := by
  simp only [addEntry, hv, Bool.not_true, Bool.false_eq_true, if_false, hp]

/-- C6 (amended): for every loaded public suffix `S`, both `domain:S`
and `exact:S` are rejected by validation and by `add_entry` (the code
rejects `exact:` public suffixes too — the claimed exemption does not
exist); and `domain:<label>.S` is accepted for every valid label,
provided `<label>.S` is not itself a loaded public suffix (such as
`blogspot.com`). -/
theorem public_suffix_guard
    (S lab : Str) (hS : S ∈ loadedPSL.suffixes)
    (hlab : matchesLabelPattern lab = true) (hlen : lab.length ≤ 63)
    (hnot : (lab ++ '.' :: S) ∉ loadedPSL.suffixes) :
    validateEntry ("domain:".data ++ S) = false ∧
    (addEntry emptyManager ("domain:".data ++ S)).2 = false ∧
    validateEntry ("exact:".data ++ S) = false ∧
    (addEntry emptyManager ("exact:".data ++ S)).2 = false ∧
    validateEntry ("domain:".data ++ (lab ++ '.' :: S)) = true ∧
    (addEntry emptyManager ("domain:".data ++ (lab ++ '.' :: S))).2 = true := by
  obtain ⟨hSall, hShead, hSne, hSlabels⟩ := fallbackSuffixes_wf S hS
  have hSnospace : ∀ c ∈ S, isSpaceChar c = false :=
    fun c hc => domainChar_not_space (List.all_eq_true.mp hSall c hc)
  have hSnorm : normalizeValue S = S := normalizeValue_eq_self hSall hShead
  have hSemp : S.isEmpty = false := by
    cases S with
    | nil => exact absurd rfl hSne
    | cons _ _ => rfl
  -- facts about the label
  have hlabdec := hlab
  simp only [matchesLabelPattern, Bool.and_eq_true] at hlabdec
  obtain ⟨⟨⟨hlabne, hlabhead⟩, hlablast⟩, hlabchars⟩ := hlabdec
  obtain ⟨c0, rest0, hlabeq⟩ : ∃ c0 rest0, lab = c0 :: rest0 := by
    cases lab with
    | nil => simp at hlabne
    | cons c0 rest0 => exact ⟨c0, rest0, rfl⟩
  have hlabdom : ∀ c ∈ lab, isDomainChar c = true :=
    fun c hc => labelChar_domainChar (List.all_eq_true.mp hlabchars c hc)
  have hlabnodot : ∀ c ∈ lab, c ≠ '.' :=
    fun c hc => labelChar_ne_dot (List.all_eq_true.mp hlabchars c hc)
  -- facts about the compound value lab ++ "." ++ S
  have hvall : (lab ++ '.' :: S).all isDomainChar = true := by
    rw [List.all_append, List.all_cons, hSall, List.all_eq_true.mpr hlabdom]
    decide
  have hc0 : isLowerAlnum c0 = true := by
    rw [hlabeq] at hlabhead
    simpa using hlabhead
  have hvhead : (lab ++ '.' :: S).take 1 ≠ ['.'] := by
    rw [hlabeq, List.cons_append]
    intro h
    simp only [List.take, List.cons.injEq] at h
    exact lowerAlnum_ne_dot hc0 h.1
  have hvnorm : normalizeValue (lab ++ '.' :: S) = lab ++ '.' :: S :=
    normalizeValue_eq_self hvall hvhead
  have hvemp : (lab ++ '.' :: S).isEmpty = false := by
    rw [hlabeq]
    rfl
  have hsplitv : splitOnDot (lab ++ '.' :: S) = lab :: splitOnDot S :=
    splitOnDot_append lab S hlabnodot
  have hvlabels : (splitOnDot (lab ++ '.' :: S)).all
      (fun l => !l.isEmpty && l.length ≤ 63 && matchesLabelPattern l) = true := by
    rw [hsplitv, List.all_cons, hSlabels, hlabne, hlab]
    simp [hlen]
  -- the whitespace-free entry strings parse as expected
  have hprechars : ∀ c ∈ "domain:".data, isSpaceChar c = false := by decide
  have hprechars' : ∀ c ∈ "exact:".data, isSpaceChar c = false := by decide
  have hvnospace : ∀ c ∈ lab ++ '.' :: S, isSpaceChar c = false :=
    fun c hc => domainChar_not_space (List.all_eq_true.mp hvall c hc)
  have hp1 : parseEntryKind (trimStr ("domain:".data ++ S)) = some (.domain, S) := by
    rw [trimStr_eq_self (fun c hc => by
      rcases List.mem_append.mp hc with h | h
      · exact hprechars c h
      · exact hSnospace c h)]
    exact parseEntryKind_domain_append S
  have hp2 : parseEntryKind (trimStr ("exact:".data ++ S)) = some (.exact, S) := by
    rw [trimStr_eq_self (fun c hc => by
      rcases List.mem_append.mp hc with h | h
      · exact hprechars' c h
      · exact hSnospace c h)]
    exact parseEntryKind_exact_append S
  have hp3 : parseEntryKind (trimStr ("domain:".data ++ (lab ++ '.' :: S)))
      = some (.domain, lab ++ '.' :: S) := by
    rw [trimStr_eq_self (fun c hc => by
      rcases List.mem_append.mp hc with h | h
      · exact hprechars c h
      · exact hvnospace c h)]
    exact parseEntryKind_domain_append _
  -- conjunct 1: domain:S rejected
  have c1 : validateEntry ("domain:".data ++ S) = false := by
    unfold validateEntry
    rw [hp1]
    dsimp only
    rw [hSnorm]
    simp only [hSemp, Bool.false_eq_true, if_false, hSlabels, if_true,
      show (("domain:".data ++ S).isEmpty) = false from rfl]
    rw [if_pos hS]
  -- conjunct 3: exact:S rejected as well (no exemption in the code)
  have c3 : validateEntry ("exact:".data ++ S) = false := by
    unfold validateEntry
    rw [hp2]
    dsimp only
    rw [hSnorm]
    simp only [hSemp, Bool.false_eq_true, if_false, hSlabels, if_true,
      show (("exact:".data ++ S).isEmpty) = false from rfl,
      isPublicSuffix_of_mem hS]
    rfl
  -- conjunct 5: domain:<label>.S accepted
  have c5 : validateEntry ("domain:".data ++ (lab ++ '.' :: S)) = true := by
    unfold validateEntry
    rw [hp3]
    dsimp only
    rw [hvnorm]
    simp only [hvemp, Bool.false_eq_true, if_false, hvlabels, if_true,
      show (("domain:".data ++ (lab ++ '.' :: S)).isEmpty) = false by
        rw [hlabeq]; rfl]
    rw [if_neg hnot]
    have hlen2 : 2 ≤ (splitOnDot (lab ++ '.' :: S)).length := by
      rw [hsplitv, List.length_cons]
      have := List.length_pos.mpr (splitOnDot_ne_nil S)
      omega
    rw [if_pos hlen2]
    by_cases hvt : (lab ++ '.' :: S) =
        (splitOnDot (lab ++ '.' :: S)).dropLast.getLastD [] ++
          '.' :: (splitOnDot (lab ++ '.' :: S)).getLastD []
    · have hmem : (splitOnDot (lab ++ '.' :: S)).dropLast.getLastD [] ++
          '.' :: (splitOnDot (lab ++ '.' :: S)).getLastD [] ∉ loadedPSL.suffixes :=
        hvt ▸ hnot
      rw [decide_eq_true hvt, decide_eq_false hmem]
      rfl
    · rw [decide_eq_false hvt]
      rfl
  exact ⟨c1, addEntry_snd_of_invalid c1, c3, addEntry_snd_of_invalid c3, c5,
    addEntry_snd_of_valid hp3 c5⟩

/-- C6 counterexample to the claim as stated: `exact:com` is rejected
(the code's public-suffix guard applies to `exact:` entries too), and
`domain:blogspot.com` — a `domain:<label>.S` instance with the valid
label `blogspot` and `S = com` — is also rejected because
`blogspot.com` is itself a loaded public suffix. -/
theorem public_suffix_guard_cex :
    validateEntry "exact:com".data = false ∧
    (addEntry emptyManager "exact:com".data).2 = false ∧
    "com".data ∈ loadedPSL.suffixes ∧
    matchesLabelPattern "blogspot".data = true ∧
    validateEntry "domain:blogspot.com".data = false := by
  refine ⟨by decide, ?_, by decide, by decide, by decide⟩
  exact addEntry_snd_of_invalid (by decide)

/-- Witness for the amended C6 at `S = com`, `label = example`. -/
theorem public_suffix_guard_witness :
    validateEntry ("domain:".data ++ "com".data) = false ∧
    validateEntry ("exact:".data ++ "com".data) = false ∧
    validateEntry ("domain:".data ++ ("example".data ++ '.' :: "com".data)) = true := by
  have h := public_suffix_guard "com".data "example".data
    (by decide) (by decide) (by decide) (by decide)
  exact ⟨h.1, h.2.2.1, h.2.2.2.2.1⟩

theorem removeSet_append_self {l : List Str} {v : Str} (h : v ∉ l) :
    removeSet (l ++ [v]) v = l := by
  unfold removeSet
  rw [List.filter_append]
  have h1 : l.filter (fun x => x ≠ v) = l :=
    List.filter_eq_self.mpr (fun a ha => by
      have hne : a ≠ v := fun heq => h (heq ▸ ha)
      simp [hne])
  have h2 : [v].filter (fun x => x ≠ v) = [] := by simp
  rw [h1, h2, List.append_nil]

theorem removeMap_append_self {l : List (Str × WhitelistEntryM)} {v : Str}
    {we : WhitelistEntryM} (h : lookupMap l v = none) :
    removeMap (l ++ [(v, we)]) v = l := by
  unfold removeMap
  rw [List.filter_append]
  have hall := (lookupMap_eq_none_iff l v).mp h
  have h1 : l.filter (fun p => p.1 ≠ v) = l :=
    List.filter_eq_self.mpr (fun p hp => by simp [hall p hp])
  have h2 : [(v, we)].filter (fun (p : Str × WhitelistEntryM) => p.1 ≠ v) = [] := by simp
  rw [h1, h2, List.append_nil]

theorem addEntry_fields_exact {m : WhitelistManagerM} {e raw : Str}
    (hp : parseEntryKind (trimStr e) = some (.exact, raw))
    (hv : validateEntry e = true) :
    (addEntry m e).1.exactSet = insertSet m.exactSet (normalizeValue raw) ∧
    (addEntry m e).1.ipSet = m.ipSet ∧
    (addEntry m e).1.domainMap = m.domainMap := by
  simp [addEntry, hv, hp]

theorem addEntry_fields_ip {m : WhitelistManagerM} {e raw : Str}
    (hp : parseEntryKind (trimStr e) = some (.ip, raw))
    (hv : validateEntry e = true) :
    (addEntry m e).1.exactSet = m.exactSet ∧
    (addEntry m e).1.ipSet = insertSet m.ipSet (normalizeValue raw) ∧
    (addEntry m e).1.domainMap = m.domainMap := by
  simp [addEntry, hv, hp]

theorem addEntry_fields_domain {m : WhitelistManagerM} {e raw : Str}
    (hp : parseEntryKind (trimStr e) = some (.domain, raw))
    (hv : validateEntry e = true)
    (habs : lookupMap m.domainMap (normalizeValue raw) = none) :
    (addEntry m e).1.exactSet = m.exactSet ∧
    (addEntry m e).1.ipSet = m.ipSet ∧
    (addEntry m e).1.domainMap = m.domainMap ++
      [(normalizeValue raw,
        { kind := .domain, value := normalizeValue raw, original := trimStr e,
          labelCount := (splitOnDot (normalizeValue raw)).length })] := by
  simp [addEntry, hv, hp, habs]

theorem removeEntry_fields_exact {m : WhitelistManagerM} {e raw : Str}
    (hp : parseEntryKind (trimStr e) = some (.exact, raw))
    (hmem : normalizeValue raw ∈ m.exactSet) :
    (removeEntry m e).1.exactSet = removeSet m.exactSet (normalizeValue raw) ∧
    (removeEntry m e).1.ipSet = m.ipSet ∧
    (removeEntry m e).1.domainMap = m.domainMap := by
  simp [removeEntry, hp, hmem]

theorem removeEntry_fields_ip {m : WhitelistManagerM} {e raw : Str}
    (hp : parseEntryKind (trimStr e) = some (.ip, raw))
    (hmem : normalizeValue raw ∈ m.ipSet) :
    (removeEntry m e).1.exactSet = m.exactSet ∧
    (removeEntry m e).1.ipSet = removeSet m.ipSet (normalizeValue raw) ∧
    (removeEntry m e).1.domainMap = m.domainMap := by
  simp [removeEntry, hp, hmem]

theorem removeEntry_fields_domain {m : WhitelistManagerM} {e raw : Str}
    (hp : parseEntryKind (trimStr e) = some (.domain, raw))
    (hmem : (lookupMap m.domainMap (normalizeValue raw)).isSome = true) :
    (removeEntry m e).1.exactSet = m.exactSet ∧
    (removeEntry m e).1.ipSet = m.ipSet ∧
    (removeEntry m e).1.domainMap = removeMap m.domainMap (normalizeValue raw) := by
  simp [removeEntry, hp, hmem]

/-- C7 counterexample to the claim as stated: with `exact:foo.com`
already present, adding the identical entry again and then removing it
drops the pre-existing protection too, so `is_whitelisted("foo.com")`
does not return to its pre-addition value (`true` before, `false`
after). -/
theorem add_remove_duplicate_cex :
    isWhitelisted (addEntry emptyManager "exact:foo.com".data).1 "foo.com".data = true ∧
    isWhitelisted
      (removeEntry
        (addEntry (addEntry emptyManager "exact:foo.com".data).1 "exact:foo.com".data).1
        "exact:foo.com".data).1 "foo.com".data = false := by
  constructor
  · decide
  · decide

/-- C7 (amended): adding a valid entry and then removing the same entry
restores `is_whitelisted` for every domain, provided no identical entry
(same prefix kind and normalized value) was present before the addition;
with an identical entry already present the removal also deletes the
pre-existing protection (see the counterexample). -/
theorem add_remove_roundtrip
    (m : WhitelistManagerM) (e raw : Str) (k : EntryKind) (D : Str)
    (hp : parseEntryKind (trimStr e) = some (k, raw))
    (hv : validateEntry e = true)
    (habsE : k = .exact → normalizeValue raw ∉ m.exactSet)
    (habsI : k = .ip → normalizeValue raw ∉ m.ipSet)
    (habsD : k = .domain → lookupMap m.domainMap (normalizeValue raw) = none) :
    isWhitelisted (removeEntry (addEntry m e).1 e).1 D = isWhitelisted m D := by
  cases k with
  | exact =>
    have hne := habsE rfl
    obtain ⟨h1, h2, h3⟩ := addEntry_fields_exact (m := m) hp hv
    have hins : insertSet m.exactSet (normalizeValue raw)
        = m.exactSet ++ [normalizeValue raw] := by
      unfold insertSet
      rw [if_neg hne]
    have hmem : normalizeValue raw ∈ (addEntry m e).1.exactSet := by
      rw [h1, hins]
      exact List.mem_append_right _ (List.mem_singleton_self _)
    obtain ⟨r1, r2, r3⟩ := removeEntry_fields_exact hp hmem
    apply isWhitelisted_eq_of_fields
    · rw [r1, h1, hins]
      exact removeSet_append_self hne
    · rw [r2, h2]
    · rw [r3, h3]
  | ip =>
    have hne := habsI rfl
    obtain ⟨h1, h2, h3⟩ := addEntry_fields_ip (m := m) hp hv
    have hins : insertSet m.ipSet (normalizeValue raw)
        = m.ipSet ++ [normalizeValue raw] := by
      unfold insertSet
      rw [if_neg hne]
    have hmem : normalizeValue raw ∈ (addEntry m e).1.ipSet := by
      rw [h2, hins]
      exact List.mem_append_right _ (List.mem_singleton_self _)
    obtain ⟨r1, r2, r3⟩ := removeEntry_fields_ip hp hmem
    apply isWhitelisted_eq_of_fields
    · rw [r1, h1]
    · rw [r2, h2, hins]
      exact removeSet_append_self hne
    · rw [r3, h3]
  | domain =>
    have hnone := habsD rfl
    obtain ⟨h1, h2, h3⟩ := addEntry_fields_domain (m := m) hp hv hnone
    have hmem : (lookupMap (addEntry m e).1.domainMap (normalizeValue raw)).isSome
        = true := by
      rw [h3, lookupMap_append_of_none _ _ _ hnone]
      simp [lookupMap]
    obtain ⟨r1, r2, r3⟩ := removeEntry_fields_domain hp hmem
    apply isWhitelisted_eq_of_fields
    · rw [r1, h1]
    · rw [r2, h2]
    · rw [r3, h3]
      exact removeMap_append_self hnone

/-- Witness for the amended C7: adding and removing `exact:foo.com` on a
manager that holds `domain:github.com` leaves every protection verdict
unchanged. -/
theorem add_remove_roundtrip_witness :
    isWhitelisted
      (removeEntry
        (addEntry (addEntry emptyManager "domain:github.com".data).1
          "exact:foo.com".data).1 "exact:foo.com".data).1 "github.com".data
      = isWhitelisted (addEntry emptyManager "domain:github.com".data).1
          "github.com".data :=
  add_remove_roundtrip (addEntry emptyManager "domain:github.com".data).1
    "exact:foo.com".data "foo.com".data .exact "github.com".data rfl (by decide)
    (fun _ => by decide) (fun h => EntryKind.noConfusion h)
    (fun h => EntryKind.noConfusion h)

/-- C8 counterexample to the claim as stated: `terminate_browser` does
forcefully kill — for a process that resolves and is still alive after
the graceful wait, a `kill()` appears in the call's action trace (the
source comments say so themselves: "then forceful (SIGKILL)"). -/
theorem terminate_browser_kills_cex :
    ProcAction.kill 4242 ∈ (terminateBrowser stubbornBrowserEnv).1 := by
  decide

/-- C8 (amended): `terminate_browser` first requests graceful
termination and waits; it forcefully kills exactly those processes that
were found, resolved, and were still alive after the graceful wait — and
every killed process previously received a graceful terminate request. -/
theorem terminate_browser_kill_policy (env : TerminateEnv) (pid : Nat) :
    (ProcAction.kill pid ∈ (terminateBrowser env).1 ↔
      (pid ∈ env.pids ∧ env.procExists pid = true ∧
        env.aliveAfterWait pid = true)) ∧
    (ProcAction.kill pid ∈ (terminateBrowser env).1 →
      ProcAction.terminate pid ∈ (terminateBrowser env).1) := by
  by_cases h1 : env.pids.isEmpty
  · have hnil : env.pids = [] := List.isEmpty_iff.mp h1
    have ht : (terminateBrowser env).1 = [] := by simp [terminateBrowser, h1]
    rw [ht]
    constructor
    · simp [hnil]
    · intro h
      simp at h
  · by_cases h2 : (env.pids.filter env.procExists).isEmpty
    · have hnil : env.pids.filter env.procExists = [] := List.isEmpty_iff.mp h2
      have ht : (terminateBrowser env).1 = [] := by simp [terminateBrowser, h1, h2]
      rw [ht]
      constructor
      · constructor
        · intro h
          simp at h
        · rintro ⟨hp, he, -⟩
          have hmem : pid ∈ env.pids.filter env.procExists :=
            List.mem_filter.mpr ⟨hp, he⟩
          rw [hnil] at hmem
          simp at hmem
      · intro h
        simp at h
    · have ht : (terminateBrowser env).1 =
          (env.pids.filter env.procExists).map ProcAction.terminate ++
            ProcAction.wait ::
              ((env.pids.filter env.procExists).filter env.aliveAfterWait).map
                ProcAction.kill := by
        simp [terminateBrowser, h1, h2]
      rw [ht]
      have hkill : ProcAction.kill pid ∈
          ((env.pids.filter env.procExists).map ProcAction.terminate ++
            ProcAction.wait ::
              ((env.pids.filter env.procExists).filter env.aliveAfterWait).map
                ProcAction.kill) ↔
          (pid ∈ env.pids ∧ env.procExists pid = true ∧
            env.aliveAfterWait pid = true) := by
        constructor
        · intro h
          rcases List.mem_append.mp h with h | h
          · obtain ⟨a, -, hk⟩ := List.mem_map.mp h
            exact ProcAction.noConfusion hk
          · rcases List.mem_cons.mp h with h | h
            · exact ProcAction.noConfusion h
            · obtain ⟨a, ha, hk⟩ := List.mem_map.mp h
              have haeq : a = pid := by injection hk
              subst haeq
              have h3 := List.mem_filter.mp ha
              have h4 := List.mem_filter.mp h3.1
              exact ⟨h4.1, h4.2, h3.2⟩
        · rintro ⟨hp, he, ha⟩
          refine List.mem_append.mpr (Or.inr (List.mem_cons.mpr (Or.inr ?_)))
          exact List.mem_map.mpr ⟨pid,
            List.mem_filter.mpr ⟨List.mem_filter.mpr ⟨hp, he⟩, ha⟩, rfl⟩
      refine ⟨hkill, fun h => ?_⟩
      obtain ⟨hp, he, -⟩ := hkill.mp h
      exact List.mem_append.mpr
        (Or.inl (List.mem_map.mpr ⟨pid, List.mem_filter.mpr ⟨hp, he⟩, rfl⟩))

/-- Witness for the amended C8 on the stubborn-browser environment. -/
theorem terminate_browser_kill_policy_witness :
    (ProcAction.kill 4242 ∈ (terminateBrowser stubbornBrowserEnv).1 ↔
      (4242 ∈ stubbornBrowserEnv.pids ∧ stubbornBrowserEnv.procExists 4242 = true ∧
        stubbornBrowserEnv.aliveAfterWait 4242 = true)) ∧
    ProcAction.terminate 4242 ∈ (terminateBrowser stubbornBrowserEnv).1 := by
  have h := terminate_browser_kill_policy stubbornBrowserEnv 4242
  exact ⟨h.1, h.2 (by decide)⟩

/-- C9: a non-negative retention deletes exactly the backups strictly
older than the cutoff together with their `-wal`/`-shm`/`.meta` side
files, leaves every other file untouched, keeps exactly the directories
that still contain a file, and reports the number of deleted backups; a
negative retention is rejected with `ValueError` before anything is
deleted. -/
theorem cleanup_old_backups_spec (files : List FsFile) (dirs : List String)
    (now d : Int) :
    (0 ≤ d →
      cleanupOldBackups files dirs now d =
        .ok (survivingFiles files (now - d * 86400),
             prunedDirs dirs (survivingFiles files (now - d * 86400)),
             (files.filter (isOldBak (now - d * 86400))).length) ∧
      (∀ f ∈ files, isOldBak (now - d * 86400) f = true →
        f ∉ survivingFiles files (now - d * 86400)) ∧
      (∀ f ∈ files, isSideOfOldBak files (now - d * 86400) f.path = true →
        f ∉ survivingFiles files (now - d * 86400)) ∧
      (∀ f ∈ files, isOldBak (now - d * 86400) f = false →
        isSideOfOldBak files (now - d * 86400) f.path = false →
        f ∈ survivingFiles files (now - d * 86400)) ∧
      (∀ dd ∈ dirs,
        (dd ∈ prunedDirs dirs (survivingFiles files (now - d * 86400)) ↔
          ∃ f ∈ survivingFiles files (now - d * 86400),
            (dd ++ "/").data <+: f.path.data))) ∧
    (d < 0 →
      cleanupOldBackups files dirs now d =
        .error "retention_days must be non-negative") := by
  constructor
  · intro hd
    have hnneg : ¬ d < 0 := by omega
    refine ⟨?_, ?_, ?_, ?_, ?_⟩
    · unfold cleanupOldBackups
      rw [if_neg hnneg]
    · intro f hf hold hmem
      have h2 := (List.mem_filter.mp hmem).2
      rw [hold] at h2
      simp at h2
    · intro f hf hside hmem
      have h2 := (List.mem_filter.mp hmem).2
      rw [hside] at h2
      simp at h2
    · intro f hf hold hside
      refine List.mem_filter.mpr ⟨hf, ?_⟩
      rw [hold, hside]
      rfl
    · intro dd hdd
      simp only [prunedDirs, List.mem_filter, List.any_eq_true, decide_eq_true_eq]
      constructor
      · rintro ⟨-, h⟩
        exact h
      · intro h
        exact ⟨hdd, h⟩
  · intro hd
    unfold cleanupOldBackups
    rw [if_pos hd]

/-- Witness for C9 on the concrete backup tree: retention 7 days at
`now = 1000100` deletes the stale backup and its `-wal` file, keeps the
fresh backup, prunes the backup-less `root/Edge` directory, and a
retention of `-1` is rejected. -/
theorem cleanup_old_backups_spec_witness :
    (0 : Int) ≤ 7 ∧
    cleanupOldBackups witnessBackupFiles witnessBackupDirs 1000100 7 =
      .ok ([{ path := "root/Chrome/Default/Cookies.20250301_000000.bak",
              mtime := 1000000 }],
           ["root/Chrome", "root/Chrome/Default"], 1) ∧
    (-1 : Int) < 0 ∧
    cleanupOldBackups witnessBackupFiles witnessBackupDirs 1000100 (-1) =
      .error "retention_days must be non-negative" := by
  refine ⟨by decide, ?_, by decide, ?_⟩
  · exact ((cleanup_old_backups_spec witnessBackupFiles witnessBackupDirs 1000100 7).1
      (by decide)).1
  · exact (cleanup_old_backups_spec witnessBackupFiles witnessBackupDirs 1000100 (-1)).2
      (by decide)

end CookieCleaner
